import Mathlib

/-!
Verification of the Somfy Universal RTS Interface command dispatcher
(`somfyrts.py`).

The development shallowly embeds the dispatcher:

* the command encoding performed by the format strings in
  `SomfyRTS._do_single_command` becomes the function `encodeCommand`;
* the validation asserts of `_do_single_command` become an explicit
  error result (`RTSError`, following the spec's error taxonomy:
  `InvalidChannelError`, `InvalidActionError`, `DispatcherClosedError`),
  in the order the asserts appear in the source;
* the dispatcher's mutable fields (`_command_queue`, `_last_command_time`,
  `_closed`, `_queue_is_empty`, `_check_queue`) together with the history
  of transport writes become the record `RTSState`;
* the timed drain loop `_process_command_queue` becomes a step relation
  `DrainStep` over `RTSState`; clock readings (`datetime.datetime.now()`)
  are integers (think microseconds, the resolution of Python's
  `datetime`/`timedelta`), supplied at each step: the relation only
  assumes that time does not run backwards within a single loop
  iteration (check time ≤ write start ≤ the `now()` taken after the write);
* arbitrary interleavings of the loop with the public mutating
  operations become the relation `SysStep`.
-/

namespace SomfyRTS

/-- Error taxonomy of the spec, used to classify which of the validation
asserts of `_do_single_command` / `clear_command_queue` / `close` /
`flush_command_queue` fails.  The asserts are modelled in source order. -/
inductive RTSError where
  | invalidChannel
  | invalidAction
  | dispatcherClosed
deriving DecidableEq, Repr

/-- The `channels` argument of `up` / `down` / `stop`: `None`, a single
integer, or a collection of integers (`_do_command`, lines 90-97). -/
inductive Channels where
  | absent
  | one (channel : Nat)
  | many (channels : List Nat)
deriving DecidableEq, Repr

/-- Python's `"{:02}".format(channel)`: the decimal digits of `channel`
padded with zeros on the left to a minimum width of two. -/
def pad2 (channel : Nat) : String :=
  let s := toString channel
  if s.length < 2 then "0" ++ s else s

/-- The command string built at lines 109-110 of `somfyrts.py`:
`"{0}{1}\r".format(command, channel)` for version 1 and
`"01{1:02}{0}".format(command, channel)` otherwise. -/
def encodeCommand (version : Nat) (command : Char) (channel : Nat) : String :=
  if version = 1 then String.mk [command] ++ toString channel ++ "\r"
  else "01" ++ pad2 channel ++ String.mk [command]

/-- `datetime.datetime.min`, the sentinel `_last_command_time` is
initialized to: the origin of the modelled clock.  Actual clock readings
taken during the dispatcher's lifetime are far later. -/
def datetimeMin : Int := 0

/-- Dispatcher state: the queue `_command_queue`, the timestamp
`_last_command_time`, the three event flags `_closed`, `_queue_is_empty`
and `_check_queue`, and the transport output so far (`sent` records each
write as the pair of its start time and the command string, in the order
the writes happened). -/
structure RTSState where
  commandQueue : List String
  lastCommandTime : Int
  closed : Bool
  queueIsEmpty : Bool
  checkQueue : Bool
  sent : List (Int × String)
deriving DecidableEq, Repr

/-- The state right after `SomfyRTS.__init__` (lines 35-47): empty queue,
`_last_command_time = datetime.min`, `_closed` clear, `_queue_is_empty`
set, nothing written yet. -/
def initState : RTSState :=
  { commandQueue := []
    lastCommandTime := datetimeMin
    closed := false
    queueIsEmpty := true
    checkQueue := false
    sent := [] }

/-- The locked section of `_do_single_command` (lines 112-115): append the
command, clear `_queue_is_empty`, set `_check_queue`. -/
def appendCommand (s : RTSState) (cmd : String) : RTSState :=
  { s with commandQueue := s.commandQueue ++ [cmd]
           queueIsEmpty := false
           checkQueue := true }

/-- `_do_single_command` (lines 99-115) up to the optional synchronous
drain: the four asserts in source order (channel ≥ 1; channel in range
for the version; command recognized; dispatcher not closed), then encode
and append.  A failing assert leaves the state unchanged and is reported
as the corresponding spec error. -/
def do_single_command (version : Nat) (command : Char) (channel : Nat)
    (s : RTSState) : RTSState × Option RTSError :=
  if channel < 1 then (s, some RTSError.invalidChannel)
  else if ¬ ((version = 1 ∧ channel ≤ 5) ∨ (version = 2 ∧ channel ≤ 16)) then
    (s, some RTSError.invalidChannel)
  else if ¬ (command = 'U' ∨ command = 'D' ∨ command = 'S') then
    (s, some RTSError.invalidAction)
  else if s.closed then (s, some RTSError.dispatcherClosed)
  else (appendCommand s (encodeCommand version command channel), none)

/-- The `for c in channels` loop of `_do_command` (lines 96-97): process
the channels in order, stopping at the first failure; the queue keeps the
commands appended before the failure (a Python exception unwinds without
undoing earlier appends). -/
def do_command_list (version : Nat) (command : Char) (channels : List Nat)
    (s : RTSState) : RTSState × Option RTSError :=
  match channels with
  | [] => (s, none)
  | c :: rest =>
    match do_single_command version command c s with
    | (s1, none) => do_command_list version command rest s1
    | (s1, some e) => (s1, some e)

/-- `_do_command` (lines 90-97): `None` does nothing, an integer is a
single command, a collection is processed in order. -/
def do_command (version : Nat) (command : Char) (channels : Channels)
    (s : RTSState) : RTSState × Option RTSError :=
  match channels with
  | Channels.absent => (s, none)
  | Channels.one c => do_single_command version command c s
  | Channels.many cs => do_command_list version command cs s

/-- `up(channels)` (line 125). -/
def up (version : Nat) (channels : Channels) (s : RTSState) :
    RTSState × Option RTSError :=
  do_command version 'U' channels s

/-- `down(channels)` (line 132). -/
def down (version : Nat) (channels : Channels) (s : RTSState) :
    RTSState × Option RTSError :=
  do_command version 'D' channels s

/-- `stop(channels)` (line 139). -/
def stop (version : Nat) (channels : Channels) (s : RTSState) :
    RTSState × Option RTSError :=
  do_command version 'S' channels s

/-- `clear_command_queue` (lines 141-147): fails if closed, otherwise
empties the queue and sets `_queue_is_empty`. -/
def clear_command_queue (s : RTSState) : RTSState × Option RTSError :=
  if s.closed then (s, some RTSError.dispatcherClosed)
  else ({ s with commandQueue := [], queueIsEmpty := true }, none)

/-- `close` (lines 156-169): fails if already closed, otherwise sets
`_closed`, discards the queue, sets `_queue_is_empty` and `_check_queue`.
The transport writes already made (`sent`) are untouched. -/
def close (s : RTSState) : RTSState × Option RTSError :=
  if s.closed then (s, some RTSError.dispatcherClosed)
  else ({ s with closed := true
                 commandQueue := []
                 queueIsEmpty := true
                 checkQueue := true }, none)

/-- `flush_command_queue` (lines 149-154): fails if closed, otherwise
waits on `_queue_is_empty`.  The modelled return value is the immediate
outcome of that wait: when the event is already set the wait returns
`True` at once; the behaviour of the timed wait while the event is clear
is treated through theorems about the `queueIsEmpty` flag itself. -/
def flush_command_queue (s : RTSState) : Except RTSError Bool :=
  if s.closed then Except.error RTSError.dispatcherClosed
  else Except.ok s.queueIsEmpty

/-- The channel validity required by the first two asserts of
`_do_single_command` (lines 100-101): `channel >= 1` and
`(version == 1 and channel <= 5) or (version == 2 and channel <= 16)`. -/
def channelOk (version channel : Nat) : Prop :=
  1 ≤ channel ∧ ((version = 1 ∧ channel ≤ 5) ∨ (version = 2 ∧ channel ≤ 16))

instance (version channel : Nat) : Decidable (channelOk version channel) := by
  unfold channelOk
  infer_instance

/-- Follows the spec's words: the decimal digits of `n`, most significant
first, without leading zeros.  Stated for `n < 100`, which covers every
channel valid for either protocol version and the spec's examples. -/
def specDecimal (n : Nat) : List Char :=
  if n < 10 then [Nat.digitChar n]
  else [Nat.digitChar (n / 10), Nat.digitChar (n % 10)]

/-- Follows the spec's words (version 1): ASCII letter for the direction,
concatenated with the decimal channel number (no leading zeros),
terminated by a carriage-return byte. -/
def specEncodeV1 (d : Char) (channel : Nat) : String :=
  String.mk (d :: specDecimal channel ++ ['\r'])

/-- Follows the spec's words (version 2): literal prefix `01`, the channel
number zero-padded to exactly two digits, then the direction letter; no
terminator byte. -/
def specEncodeV2 (d : Char) (channel : Nat) : String :=
  String.mk ('0' :: '1' ::
    (if channel < 10 then '0' :: specDecimal channel else specDecimal channel) ++ [d])

/- Helper lemmas about `do_single_command`, shared by several claims. -/

/-- When the channel and command are valid and the dispatcher is open,
`_do_single_command` appends the encoded command and succeeds. -/
theorem do_single_command_ok {version : Nat} {command : Char} {channel : Nat}
    {s : RTSState} (hch : channelOk version channel)
    (hcmd : command = 'U' ∨ command = 'D' ∨ command = 'S')
    (hcl : s.closed = false) :
    do_single_command version command channel s
      = (appendCommand s (encodeCommand version command channel), none) := by
  obtain ⟨h1, h2⟩ := hch
  unfold do_single_command
  rw [if_neg (by omega), if_neg (not_not.mpr h2), if_neg (not_not.mpr hcmd),
    if_neg (by simp [hcl])]

/-- An out-of-range channel fails the first or second assert, leaving the
state unchanged, before the command or the closed flag is examined. -/
theorem do_single_command_bad_channel {version : Nat} {command : Char} {channel : Nat}
    (s : RTSState) (h : ¬ channelOk version channel) :
    do_single_command version command channel s = (s, some RTSError.invalidChannel) := by
  unfold do_single_command
  by_cases h1 : channel < 1
  · rw [if_pos h1]
  · have hr : ¬ ((version = 1 ∧ channel ≤ 5) ∨ (version = 2 ∧ channel ≤ 16)) :=
      fun hr => h ⟨by omega, hr⟩
    rw [if_neg h1, if_pos hr]

/-- C3: for every valid direction and every channel valid for the version,
the encoded command matches the spec's format exactly: version 1 is the
direction letter, the decimal channel without leading zeros, and a
carriage return; version 2 is the prefix `01`, the channel zero-padded to
two digits, and the direction letter with no terminator.  The spec's two
examples are reproduced; encoding is a pure function of (version,
direction, channel), hence deterministic. -/
theorem C3_encoding_matches_spec :
    (∀ d ∈ (['U', 'D', 'S'] : List Char), ∀ channel < 6, 1 ≤ channel →
      encodeCommand 1 d channel = specEncodeV1 d channel)
    ∧ (∀ d ∈ (['U', 'D', 'S'] : List Char), ∀ channel < 17, 1 ≤ channel →
      encodeCommand 2 d channel = specEncodeV2 d channel)
    ∧ encodeCommand 1 'D' 12 = "D12\r"
    ∧ encodeCommand 2 'S' 3 = "0103S" := by decide

/-- Witness for C3 at direction `U`, channel 1 (version 1) and direction
`D`, channel 12 (version 2). -/
theorem C3_encoding_matches_spec_witness :
    encodeCommand 1 'U' 1 = specEncodeV1 'U' 1
    ∧ encodeCommand 2 'D' 12 = specEncodeV2 'D' 12 :=
  ⟨C3_encoding_matches_spec.1 'U' (by decide) 1 (by decide) (by decide),
   C3_encoding_matches_spec.2.1 'D' (by decide) 12 (by decide) (by decide)⟩

/-- C6: encoding a command fails with `InvalidChannelError` when the
channel is out of range for the protocol version (1..5 for version 1,
1..16 for version 2), and fails with `InvalidActionError` when the
channel is in range but the direction is not one of `U`, `D`, `S`; the
state is unchanged in both cases. -/
theorem C6_validation_errors (version : Nat) (command : Char) (channel : Nat)
    (s : RTSState) :
    (¬ channelOk version channel →
      do_single_command version command channel s = (s, some RTSError.invalidChannel))
    ∧ (channelOk version channel →
      ¬ (command = 'U' ∨ command = 'D' ∨ command = 'S') →
      do_single_command version command channel s = (s, some RTSError.invalidAction)) := by
  constructor
  · intro h
    exact do_single_command_bad_channel s h
  · intro h hcmd
    obtain ⟨h1, h2⟩ := h
    unfold do_single_command
    rw [if_neg (by omega), if_neg (not_not.mpr h2), if_pos hcmd]

/-- Witness for C6: version 1 rejects channel 6 with `InvalidChannelError`
and rejects direction `X` on channel 2 with `InvalidActionError`. -/
theorem C6_validation_errors_witness :
    do_single_command 1 'U' 6 initState = (initState, some RTSError.invalidChannel)
    ∧ do_single_command 1 'X' 2 initState = (initState, some RTSError.invalidAction) :=
  ⟨(C6_validation_errors 1 'U' 6 initState).1 (by decide),
   (C6_validation_errors 1 'X' 2 initState).2 (by decide) (by decide)⟩

/-- C2 fails on the code: `_do_command` validates channels one at a time,
each interleaved with its append, so `down` over `[1, 99]` on a fresh
version-1 dispatcher fails with an invalid-channel error while the
command for channel 1 has already reached the queue. -/
theorem C2_counterexample :
    (do_command 1 'D' (Channels.many [1, 99]) initState).2
        = some RTSError.invalidChannel
    ∧ (do_command 1 'D' (Channels.many [1, 99]) initState).1.commandQueue
        = [encodeCommand 1 'D' 1] := by decide

/-- Processing a valid head channel on an open dispatcher appends its
encoded command and continues with the tail. -/
theorem do_command_list_cons_ok {version : Nat} {command : Char} {p : Nat}
    {s : RTSState} (l : List Nat) (hp : channelOk version p)
    (hcmd : command = 'U' ∨ command = 'D' ∨ command = 'S')
    (hcl : s.closed = false) :
    do_command_list version command (p :: l) s
      = do_command_list version command l
          (appendCommand s (encodeCommand version command p)) := by
  simp only [do_command_list, do_single_command_ok hp hcmd hcl]

/-- C2 amended: validation is per channel, interleaved with appending.  On
a multi-channel call whose first invalid channel is `c`, every channel
before `c` has its encoded command appended to the queue (and, in
synchronous mode, possibly already sent) before the call fails with
`InvalidChannelError`; those earlier commands stay in the queue. -/
theorem C2_amended_partial_append (version : Nat) (command : Char)
    (pre : List Nat) (c : Nat) (rest : List Nat) (s : RTSState)
    (hcl : s.closed = false)
    (hcmd : command = 'U' ∨ command = 'D' ∨ command = 'S')
    (hpre : ∀ x ∈ pre, channelOk version x)
    (hc : ¬ channelOk version c) :
    (do_command version command (Channels.many (pre ++ c :: rest)) s).2
        = some RTSError.invalidChannel
    ∧ (do_command version command (Channels.many (pre ++ c :: rest)) s).1.commandQueue
        = s.commandQueue ++ pre.map (encodeCommand version command) := by
  induction pre generalizing s with
  | nil =>
    simp only [do_command, List.nil_append, do_command_list,
      do_single_command_bad_channel s hc, List.map_nil, List.append_nil]
    exact ⟨trivial, trivial⟩
  | cons p pre ih =>
    have hp : channelOk version p := hpre p (List.mem_cons_self p pre)
    have hpre' : ∀ x ∈ pre, channelOk version x :=
      fun x hx => hpre x (List.mem_cons_of_mem p hx)
    have hcl' : (appendCommand s (encodeCommand version command p)).closed = false := hcl
    obtain ⟨ih1, ih2⟩ := ih (appendCommand s (encodeCommand version command p)) hcl' hpre'
    have hstep : do_command version command (Channels.many ((p :: pre) ++ c :: rest)) s
        = do_command version command (Channels.many (pre ++ c :: rest))
            (appendCommand s (encodeCommand version command p)) := by
      show do_command_list version command ((p :: pre) ++ c :: rest) s = _
      rw [List.cons_append, do_command_list_cons_ok _ hp hcmd hcl]
      rfl
    have hq : (appendCommand s (encodeCommand version command p)).commandQueue
        = s.commandQueue ++ [encodeCommand version command p] := rfl
    rw [hstep]
    refine ⟨ih1, ?_⟩
    rw [ih2, hq, List.map_cons, List.append_assoc]
    rfl

/-- Witness for the amended C2: `down([1, 99])`, version 1, leaves exactly
the channel-1 command in the queue and fails with `InvalidChannelError`. -/
theorem C2_amended_partial_append_witness :
    (do_command 1 'D' (Channels.many ([1] ++ 99 :: [])) initState).2
        = some RTSError.invalidChannel
    ∧ (do_command 1 'D' (Channels.many ([1] ++ 99 :: [])) initState).1.commandQueue
        = initState.commandQueue ++ [1].map (encodeCommand 1 'D') :=
  C2_amended_partial_append 1 'D' [1] 99 [] initState (by decide) (by decide)
    (by decide) (by decide)

/-- C7 fails on the code: on a closed dispatcher, enqueue with the
non-absent (but out-of-range) channel 6 fails with `InvalidChannelError`,
not `DispatcherClosedError`, because the channel asserts run before the
closed check. -/
theorem C7_counterexample :
    (do_single_command 1 'U' 6 (close initState).1).1.closed = true
    ∧ (do_single_command 1 'U' 6 (close initState).1).2 = some RTSError.invalidChannel
    ∧ (do_single_command 1 'U' 6 (close initState).1).2 ≠ some RTSError.dispatcherClosed := by
  decide

/-- C7 amended: after `close()` has completed, enqueue with a channel and
direction valid for the version fails with `DispatcherClosedError` (with
an invalid channel or direction the corresponding validation error fires
first), and `clear` and a second `close` fail with
`DispatcherClosedError`; the state is unchanged in every case. -/
theorem C7_amended_closed_errors (version : Nat) (command : Char) (channel : Nat)
    (s : RTSState) (hcl : s.closed = true)
    (hch : channelOk version channel)
    (hcmd : command = 'U' ∨ command = 'D' ∨ command = 'S') :
    do_single_command version command channel s = (s, some RTSError.dispatcherClosed)
    ∧ clear_command_queue s = (s, some RTSError.dispatcherClosed)
    ∧ close s = (s, some RTSError.dispatcherClosed) := by
  obtain ⟨h1, h2⟩ := hch
  refine ⟨?_, ?_, ?_⟩
  · unfold do_single_command
    rw [if_neg (by omega), if_neg (not_not.mpr h2), if_neg (not_not.mpr hcmd),
      if_pos hcl]
  · unfold clear_command_queue
    rw [if_pos hcl]
  · unfold close
    rw [if_pos hcl]

/-- Witness for the amended C7 on the state produced by closing a fresh
dispatcher, with the valid enqueue `up(1)`. -/
theorem C7_amended_closed_errors_witness :
    do_single_command 1 'U' 1 (close initState).1
        = ((close initState).1, some RTSError.dispatcherClosed)
    ∧ clear_command_queue (close initState).1
        = ((close initState).1, some RTSError.dispatcherClosed)
    ∧ close (close initState).1
        = ((close initState).1, some RTSError.dispatcherClosed) :=
  C7_amended_closed_errors 1 'U' 1 (close initState).1 (by decide) (by decide) (by decide)

/-- C9: enqueuing with an absent (`None`) channel set through `up`, `down`
or `stop` is a no-op: the state (queue, flags, transport output) is
exactly unchanged and no error is raised. -/
theorem C9_absent_is_noop (version : Nat) (s : RTSState) :
    up version Channels.absent s = (s, none)
    ∧ down version Channels.absent s = (s, none)
    ∧ stop version Channels.absent s = (s, none) :=
  ⟨rfl, rfl, rfl⟩

/-- C10: on a closed dispatcher, `flush_command_queue` fails with
`DispatcherClosedError` instead of returning a boolean. -/
theorem C10_flush_after_close_fails (s : RTSState) (hcl : s.closed = true) :
    flush_command_queue s = Except.error RTSError.dispatcherClosed := by
  unfold flush_command_queue
  rw [if_pos hcl]

/-- Witness for C10 on the state produced by closing a fresh dispatcher. -/
theorem C10_flush_after_close_fails_witness :
    flush_command_queue (close initState).1 = Except.error RTSError.dispatcherClosed :=
  C10_flush_after_close_fails (close initState).1 (by decide)

/-! ## The drain loop and its interleavings -/

/-- One iteration of the `while` loop of `_process_command_queue`
(lines 69-83).  `t` is the `datetime.now()` reading used to compute
`sleep_time` at line 72.  A `sleep` iteration (lines 74-78) leaves the
dispatcher state unchanged; a `write` iteration (lines 80-83) pops the
front of the queue, writes it to the transport starting at some time
`tWrite` not earlier than the check, and records the `datetime.now()`
reading `tAfter` taken after the write as the new `_last_command_time`.
Time is assumed not to run backwards within one iteration
(`t ≤ tWrite ≤ tAfter`); nothing is assumed across iterations. -/
inductive DrainStep (interval : Int) : RTSState → RTSState → Prop
  | sleep (s : RTSState) (t : Int)
      (hcl : s.closed = false) (hq : s.commandQueue ≠ [])
      (hwait : 0 < interval - (t - s.lastCommandTime)) :
      DrainStep interval s s
  | write (s : RTSState) (t tWrite tAfter : Int) (cmd : String) (rest : List String)
      (hcl : s.closed = false) (hq : s.commandQueue = cmd :: rest)
      (hdue : interval - (t - s.lastCommandTime) ≤ 0)
      (hstart : t ≤ tWrite) (hafter : tWrite ≤ tAfter) :
      DrainStep interval s
        { s with commandQueue := rest
                 sent := s.sent ++ [(tWrite, cmd)]
                 lastCommandTime := tAfter }

/-- The loop-exit effects of `_process_command_queue` (lines 84-85): set
`_queue_is_empty`, clear `_check_queue`. -/
def exitEffects (s : RTSState) : RTSState :=
  { s with queueIsEmpty := true, checkQueue := false }

/-- A complete call of `_process_command_queue`: some drain iterations,
then the loop condition fails (closed, or queue empty), then the exit
effects; the returned boolean is `not closed` (lines 86-88). -/
inductive ProcessQueueExec (interval : Int) : RTSState → RTSState × Bool → Prop
  | mk (s sMid : RTSState)
      (hrun : Relation.ReflTransGen (DrainStep interval) s sMid)
      (hstop : sMid.closed = true ∨ sMid.commandQueue = []) :
      ProcessQueueExec interval s (exitEffects sMid, !sMid.closed)

/-- Any interleaving of the drain loop with the public mutating
operations: a drain iteration, a loop exit, an enqueue (threaded-mode
`up`/`down`/`stop` with any version, direction and channels argument),
`clear_command_queue`, or `close`.  An operation that fails leaves the
state unchanged, which is what `.1` of its result is in that case. -/
inductive SysStep (interval : Int) : RTSState → RTSState → Prop
  | drain {s s' : RTSState} (h : DrainStep interval s s') : SysStep interval s s'
  | exitLoop {s : RTSState} (h : s.closed = true ∨ s.commandQueue = []) :
      SysStep interval s (exitEffects s)
  | enqueue {s : RTSState} (version : Nat) (command : Char) (channels : Channels) :
      SysStep interval s (do_command version command channels s).1
  | clearOp {s : RTSState} : SysStep interval s (clear_command_queue s).1
  | closeOp {s : RTSState} : SysStep interval s (close s).1

/-- The fields the drain loop is sensitive to but the enqueue / clear /
close / exit paths never touch: the closed flag, the transport output and
the last-command timestamp. -/
def SameCore (s s' : RTSState) : Prop :=
  s'.closed = s.closed ∧ s'.sent = s.sent ∧ s'.lastCommandTime = s.lastCommandTime

theorem sameCore_refl (s : RTSState) : SameCore s s := ⟨Eq.refl _, Eq.refl _, Eq.refl _⟩

theorem SameCore.trans {s1 s2 s3 : RTSState} (h1 : SameCore s1 s2) (h2 : SameCore s2 s3) :
    SameCore s1 s3 :=
  ⟨h2.1.trans h1.1, h2.2.1.trans h1.2.1, h2.2.2.trans h1.2.2⟩

/-- `_do_single_command` never touches the closed flag, the transport
output or the last-command timestamp. -/
theorem do_single_command_sameCore (version : Nat) (command : Char) (channel : Nat)
    (s : RTSState) : SameCore s (do_single_command version command channel s).1 := by
  unfold do_single_command
  split
  · exact sameCore_refl s
  split
  · exact sameCore_refl s
  split
  · exact sameCore_refl s
  split
  · exact sameCore_refl s
  · exact ⟨rfl, rfl, rfl⟩

/-- On a closed dispatcher `_do_single_command` leaves the state exactly
unchanged (one of the four asserts fails before the append). -/
theorem do_single_command_closed (version : Nat) (command : Char) (channel : Nat)
    {s : RTSState} (hcl : s.closed = true) :
    (do_single_command version command channel s).1 = s := by
  unfold do_single_command
  split
  · rfl
  split
  · rfl
  split
  · rfl
  simp [hcl]

theorem do_command_list_sameCore (version : Nat) (command : Char) (cs : List Nat)
    (s : RTSState) : SameCore s (do_command_list version command cs s).1 := by
  induction cs generalizing s with
  | nil => exact sameCore_refl s
  | cons c cs ih =>
    show SameCore s (match do_single_command version command c s with
      | (s1, none) => do_command_list version command cs s1
      | (s1, some e) => (s1, some e)).1
    rcases hres : do_single_command version command c s with ⟨s1, e⟩
    have hcore := do_single_command_sameCore version command c s
    rw [hres] at hcore
    cases e with
    | none => exact hcore.trans (ih s1)
    | some e => exact hcore

theorem do_command_list_closed (version : Nat) (command : Char) (cs : List Nat)
    {s : RTSState} (hcl : s.closed = true) :
    (do_command_list version command cs s).1 = s := by
  induction cs with
  | nil => rfl
  | cons c cs ih =>
    show (match do_single_command version command c s with
      | (s1, none) => do_command_list version command cs s1
      | (s1, some e) => (s1, some e)).1 = s
    rcases hres : do_single_command version command c s with ⟨s1, e⟩
    have hs1 : s1 = s := by
      have := do_single_command_closed version command c hcl
      rw [hres] at this
      exact this
    cases e with
    | none => rw [hs1] at *; exact ih
    | some e => exact hs1

theorem do_command_sameCore (version : Nat) (command : Char) (channels : Channels)
    (s : RTSState) : SameCore s (do_command version command channels s).1 := by
  cases channels with
  | absent => exact sameCore_refl s
  | one c => exact do_single_command_sameCore version command c s
  | many cs => exact do_command_list_sameCore version command cs s

theorem do_command_closed (version : Nat) (command : Char) (channels : Channels)
    {s : RTSState} (hcl : s.closed = true) :
    (do_command version command channels s).1 = s := by
  cases channels with
  | absent => rfl
  | one c => exact do_single_command_closed version command c hcl
  | many cs => exact do_command_list_closed version command cs hcl

theorem clear_command_queue_sameCore (s : RTSState) :
    SameCore s (clear_command_queue s).1 := by
  unfold clear_command_queue
  split
  · exact sameCore_refl s
  · exact ⟨rfl, rfl, rfl⟩

theorem close_sameCore_sent (s : RTSState) :
    (close s).1.sent = s.sent ∧ (close s).1.lastCommandTime = s.lastCommandTime := by
  unfold close
  split
  · exact ⟨rfl, rfl⟩
  · exact ⟨rfl, rfl⟩

/-! ## Invariants of the interleaved system -/

/-- The pacing invariant: consecutive recorded write-start times are at
least `interval` apart, and `_last_command_time` is no earlier than the
start of the last write (it is the `now()` taken after that write). -/
def Paced (interval : Int) (s : RTSState) : Prop :=
  List.Chain' (fun a b : Int × String => a.1 + interval ≤ b.1) s.sent
  ∧ ∀ x ∈ s.sent.getLast?, x.1 ≤ s.lastCommandTime

theorem paced_of_eq {interval : Int} {s s' : RTSState}
    (hsent : s'.sent = s.sent) (hlast : s'.lastCommandTime = s.lastCommandTime)
    (h : Paced interval s) : Paced interval s' := by
  obtain ⟨hc, hl⟩ := h
  refine ⟨by rw [hsent]; exact hc, ?_⟩
  intro x hx
  rw [hsent] at hx
  rw [hlast]
  exact hl x hx

theorem paced_drainStep {interval : Int} {s s' : RTSState}
    (hstep : DrainStep interval s s') (h : Paced interval s) : Paced interval s' := by
  cases hstep with
  | sleep t hcl hq hwait => exact h
  | write t tWrite tAfter cmd rest hcl hq hdue hstart hafter =>
    obtain ⟨hc, hl⟩ := h
    constructor
    · rw [List.chain'_append]
      refine ⟨hc, List.chain'_singleton _, ?_⟩
      intro x hx y hy
      simp only [List.head?_cons, Option.mem_def, Option.some.injEq] at hy
      subst hy
      have hxl : x.1 ≤ s.lastCommandTime := hl x hx
      simp only
      omega
    · intro x hx
      have hg : (s.sent ++ [(tWrite, cmd)]).getLast? = some (tWrite, cmd) := by simp
      rw [Option.mem_def] at hx
      rw [show ({ s with commandQueue := rest
                         sent := s.sent ++ [(tWrite, cmd)]
                         lastCommandTime := tAfter } : RTSState).sent
            = s.sent ++ [(tWrite, cmd)] from rfl, hg] at hx
      injection hx with hx
      subst hx
      exact hafter

theorem paced_sysStep {interval : Int} {s s' : RTSState}
    (hstep : SysStep interval s s') (h : Paced interval s) : Paced interval s' := by
  cases hstep with
  | drain hd => exact paced_drainStep hd h
  | exitLoop hstop => exact paced_of_eq rfl rfl h
  | enqueue version command channels =>
    obtain ⟨h1, h2, h3⟩ := do_command_sameCore version command channels s
    exact paced_of_eq h2 h3 h
  | clearOp =>
    obtain ⟨h1, h2, h3⟩ := clear_command_queue_sameCore s
    exact paced_of_eq h2 h3 h
  | closeOp =>
    obtain ⟨h1, h2⟩ := close_sameCore_sent s
    exact paced_of_eq h1 h2 h

/-- The queue-empty event and the closed event only read `true` when the
queue really is empty (the event is cleared on every append and set only
by the drain-loop exit, `clear` and `close`, all of which leave or make
the queue empty). -/
def QueueInv (s : RTSState) : Prop :=
  (s.closed = true → s.commandQueue = [])
  ∧ (s.queueIsEmpty = true → s.commandQueue = [])

theorem queueInv_do_single (version : Nat) (command : Char) (channel : Nat)
    {s : RTSState} (h : QueueInv s) :
    QueueInv (do_single_command version command channel s).1 := by
  unfold do_single_command
  split
  · exact h
  split
  · exact h
  split
  · exact h
  split
  · exact h
  rename_i hns
  refine ⟨fun hc => absurd hc hns, fun hq => ?_⟩
  simp [appendCommand] at hq

theorem queueInv_do_command_list (version : Nat) (command : Char) (cs : List Nat)
    {s : RTSState} (h : QueueInv s) :
    QueueInv (do_command_list version command cs s).1 := by
  induction cs generalizing s with
  | nil => exact h
  | cons c cs ih =>
    show QueueInv (match do_single_command version command c s with
      | (s1, none) => do_command_list version command cs s1
      | (s1, some e) => (s1, some e)).1
    rcases hres : do_single_command version command c s with ⟨s1, e⟩
    have h1 : QueueInv s1 := by
      have := queueInv_do_single version command c h
      rw [hres] at this
      exact this
    cases e with
    | none => exact ih h1
    | some e => exact h1

theorem queueInv_sysStep {interval : Int} {s s' : RTSState}
    (hstep : SysStep interval s s') (h : QueueInv s) : QueueInv s' := by
  cases hstep with
  | drain hd =>
    cases hd with
    | sleep t hcl hq hwait => exact h
    | write t tWrite tAfter cmd rest hcl hq hdue hstart hafter =>
      constructor
      · intro hc
        have hc2 : s.closed = true := hc
        rw [hcl] at hc2
        cases hc2
      · intro hq'
        have hq2 : s.queueIsEmpty = true := hq'
        have hnil := h.2 hq2
        rw [hq] at hnil
        cases hnil
  | exitLoop hstop =>
    have hempty : s.commandQueue = [] := by
      cases hstop with
      | inl hcl => exact h.1 hcl
      | inr hq => exact hq
    exact ⟨fun _ => hempty, fun _ => hempty⟩
  | enqueue version command channels =>
    cases channels with
    | absent => exact h
    | one c => exact queueInv_do_single version command c h
    | many cs => exact queueInv_do_command_list version command cs h
  | clearOp =>
    unfold clear_command_queue
    split
    · exact h
    · exact ⟨fun _ => rfl, fun _ => rfl⟩
  | closeOp =>
    unfold close
    split
    · exact h
    · exact ⟨fun _ => rfl, fun _ => rfl⟩

theorem paced_reachable {interval : Int} {s s' : RTSState}
    (hrun : Relation.ReflTransGen (SysStep interval) s s')
    (h : Paced interval s) : Paced interval s' := by
  induction hrun with
  | refl => exact h
  | tail hsteps hstep ih => exact paced_sysStep hstep ih

theorem queueInv_reachable {interval : Int} {s s' : RTSState}
    (hrun : Relation.ReflTransGen (SysStep interval) s s')
    (h : QueueInv s) : QueueInv s' := by
  induction hrun with
  | refl => exact h
  | tail hsteps hstep ih => exact queueInv_sysStep hstep ih

theorem paced_init (interval : Int) : Paced interval initState := by
  constructor
  · exact List.chain'_nil
  · intro x hx
    simp [initState] at hx

/-- C1: with any interval, in every run of the system from dispatcher
creation — drain-loop iterations arbitrarily interleaved with enqueues,
clears and closes — the recorded write-start times of consecutive
transport writes are at least `interval` apart; and on a fresh dispatcher
(`_last_command_time = datetime.min`), for any current time at least
`interval` past that sentinel, the loop takes the write branch at once
(the computed sleep time is not positive), writing the head of the queue
with no artificial delay. -/
theorem C1_pacing :
    (∀ interval : Int, 0 < interval → ∀ s' : RTSState,
      Relation.ReflTransGen (SysStep interval) initState s' →
      List.Chain' (fun a b : Int × String => a.1 + interval ≤ b.1) s'.sent)
    ∧ (∀ interval t : Int, ∀ s : RTSState, ∀ cmd : String, ∀ rest : List String,
      s.lastCommandTime = datetimeMin → s.closed = false →
      s.commandQueue = cmd :: rest → datetimeMin + interval ≤ t →
      ¬ (0 < interval - (t - s.lastCommandTime))
      ∧ DrainStep interval s
          { s with commandQueue := rest
                   sent := s.sent ++ [(t, cmd)]
                   lastCommandTime := t }) := by
  constructor
  · intro interval hpos s' hrun
    exact (paced_reachable hrun (paced_init interval)).1
  · intro interval t s cmd rest hlast hcl hq ht
    have hdue : interval - (t - s.lastCommandTime) ≤ 0 := by
      rw [hlast]
      omega
    exact ⟨by omega, DrainStep.write s t t t cmd rest hcl hq hdue le_rfl le_rfl⟩

/-- A fresh dispatcher with one command enqueued (threaded mode):
`_last_command_time` still holds the sentinel. -/
def readyState : RTSState := appendCommand initState (encodeCommand 1 'U' 1)

/-- Witness for C1: the empty run from creation satisfies the pacing
chain, and the single queued command of `readyState` is written at time 5
with no sleep when the interval is 1. -/
theorem C1_pacing_witness :
    List.Chain' (fun a b : Int × String => a.1 + 1 ≤ b.1) initState.sent
    ∧ (¬ (0 < 1 - (5 - readyState.lastCommandTime))
      ∧ DrainStep 1 readyState
          { readyState with
              commandQueue := []
              sent := readyState.sent ++ [(5, encodeCommand 1 'U' 1)]
              lastCommandTime := 5 }) :=
  ⟨C1_pacing.1 1 (by decide) initState Relation.ReflTransGen.refl,
   C1_pacing.2 1 5 readyState (encodeCommand 1 'U' 1) [] (by decide) (by decide)
     (by decide) (by decide)⟩

/-- After the closed flag is observed, no step of any kind changes the
flag back or adds a transport write. -/
theorem closed_frozen_step {interval : Int} {s s' : RTSState}
    (hstep : SysStep interval s s') (hcl : s.closed = true) :
    s'.closed = true ∧ s'.sent = s.sent := by
  cases hstep with
  | drain hd =>
    cases hd with
    | sleep t hcl' hq hwait => exact ⟨hcl, rfl⟩
    | write t tWrite tAfter cmd rest hcl' hq hdue hstart hafter =>
      rw [hcl] at hcl'
      cases hcl'
  | exitLoop hstop => exact ⟨hcl, rfl⟩
  | enqueue version command channels =>
    rw [do_command_closed version command channels hcl]
    exact ⟨hcl, rfl⟩
  | clearOp =>
    unfold clear_command_queue
    rw [if_pos hcl]
    exact ⟨hcl, rfl⟩
  | closeOp =>
    unfold close
    rw [if_pos hcl]
    exact ⟨hcl, rfl⟩

/-- C4: once the closed flag is set, no further command is ever written to
the transport under any continuation of the system (drain iterations,
enqueues, clears, closes): the transport output never grows again.
Moreover `close` on an open dispatcher discards the whole queue without
flushing it: the queue becomes empty and the transport output is exactly
what it was before the close. -/
theorem C4_close_discards_and_silences :
    (∀ interval : Int, ∀ s s' : RTSState, s.closed = true →
      Relation.ReflTransGen (SysStep interval) s s' →
      s'.sent = s.sent ∧ s'.closed = true)
    ∧ (∀ s : RTSState, s.closed = false →
      (close s).1.closed = true ∧ (close s).1.commandQueue = []
      ∧ (close s).1.sent = s.sent ∧ (close s).2 = none) := by
  constructor
  · intro interval s s' hcl hrun
    induction hrun with
    | refl => exact ⟨rfl, hcl⟩
    | tail hsteps hstep ih =>
      obtain ⟨hsent, hcl'⟩ := ih
      obtain ⟨hcl'', hsent'⟩ := closed_frozen_step hstep hcl'
      exact ⟨hsent'.trans hsent, hcl''⟩
  · intro s hcl
    unfold close
    rw [if_neg (by simp [hcl])]
    exact ⟨rfl, rfl, rfl, rfl⟩

/-- Witness for C4: the state reached by closing a fresh dispatcher with a
queued command — the queue is dropped, nothing was or will be written. -/
theorem C4_close_discards_and_silences_witness :
    ((close readyState).1.sent = (close readyState).1.sent
      ∧ (close readyState).1.closed = true)
    ∧ ((close readyState).1.closed = true ∧ (close readyState).1.commandQueue = []
      ∧ (close readyState).1.sent = readyState.sent ∧ (close readyState).2 = none) :=
  ⟨C4_close_discards_and_silences.1 1 (close readyState).1 (close readyState).1
      (by decide) Relation.ReflTransGen.refl,
   C4_close_discards_and_silences.2 readyState (by decide)⟩

/-! ## FIFO order -/

/-- On an open dispatcher with all channels valid, the whole collection is
appended to the queue in the given order, with no error. -/
theorem do_command_list_all_ok (version : Nat) (command : Char) (cs : List Nat)
    (s : RTSState) (hcl : s.closed = false)
    (hcmd : command = 'U' ∨ command = 'D' ∨ command = 'S')
    (hcs : ∀ c ∈ cs, channelOk version c) :
    (do_command_list version command cs s).1.commandQueue
        = s.commandQueue ++ cs.map (encodeCommand version command)
    ∧ (do_command_list version command cs s).2 = none := by
  induction cs generalizing s with
  | nil => exact ⟨by simp [do_command_list], rfl⟩
  | cons c cs ih =>
    have hc := hcs c (List.mem_cons_self c cs)
    have hcs' : ∀ x ∈ cs, channelOk version x :=
      fun x hx => hcs x (List.mem_cons_of_mem c hx)
    rw [do_command_list_cons_ok cs hc hcmd hcl]
    obtain ⟨ihq, ihe⟩ := ih (appendCommand s (encodeCommand version command c)) hcl hcs'
    refine ⟨?_, ihe⟩
    rw [ihq]
    show s.commandQueue ++ [encodeCommand version command c]
        ++ cs.map (encodeCommand version command) = _
    rw [List.append_assoc, List.map_cons]
    rfl

/-- One drain iteration moves a (possibly empty) prefix of the queue, in
order, to the end of the transport output. -/
theorem drain_order_single {interval : Int} {s s' : RTSState}
    (hstep : DrainStep interval s s') :
    ∃ k, s'.sent.map Prod.snd = s.sent.map Prod.snd ++ s.commandQueue.take k
      ∧ s'.commandQueue = s.commandQueue.drop k := by
  cases hstep with
  | sleep t hcl hq hwait => exact ⟨0, by simp, by simp⟩
  | write t tWrite tAfter cmd rest hcl hq hdue hstart hafter =>
    refine ⟨1, ?_, ?_⟩
    · show (s.sent ++ [(tWrite, cmd)]).map Prod.snd = _
      rw [List.map_append, hq]
      rfl
    · show rest = s.commandQueue.drop 1
      rw [hq]
      rfl

/-- C5: a multi-channel enqueue on an open dispatcher appends the encoded
commands to the queue in exactly the given channel order, and every run
of the drain loop writes a prefix of the queue to the transport in queue
order (the queue is FIFO, popped from the front), so the writes for
`down([1,3])` happen as channel 1 then channel 3. -/
theorem C5_fifo_order :
    (∀ version : Nat, ∀ command : Char, ∀ cs : List Nat, ∀ s : RTSState,
      s.closed = false → (command = 'U' ∨ command = 'D' ∨ command = 'S') →
      (∀ c ∈ cs, channelOk version c) →
      (do_command version command (Channels.many cs) s).1.commandQueue
          = s.commandQueue ++ cs.map (encodeCommand version command)
      ∧ (do_command version command (Channels.many cs) s).2 = none)
    ∧ (∀ interval : Int, ∀ s s' : RTSState,
      Relation.ReflTransGen (DrainStep interval) s s' →
      ∃ k, s'.sent.map Prod.snd = s.sent.map Prod.snd ++ s.commandQueue.take k
        ∧ s'.commandQueue = s.commandQueue.drop k) := by
  constructor
  · intro version command cs s hcl hcmd hcs
    exact do_command_list_all_ok version command cs s hcl hcmd hcs
  · intro interval s s' hrun
    induction hrun with
    | refl => exact ⟨0, by simp, by simp⟩
    | tail hsteps hstep ih =>
      obtain ⟨k1, ih1, ih2⟩ := ih
      obtain ⟨k2, g1, g2⟩ := drain_order_single hstep
      refine ⟨k1 + k2, ?_, ?_⟩
      · rw [g1, ih1, ih2, List.take_add, List.append_assoc]
      · rw [g2, ih2, List.drop_drop]

/-- Witness for C5: `down([1, 3])` on a fresh version-1 dispatcher queues
`D1\r` then `D3\r`; the empty drain run moves the empty prefix. -/
theorem C5_fifo_order_witness :
    ((do_command 1 'D' (Channels.many [1, 3]) initState).1.commandQueue
        = initState.commandQueue ++ [1, 3].map (encodeCommand 1 'D')
      ∧ (do_command 1 'D' (Channels.many [1, 3]) initState).2 = none)
    ∧ ∃ k, initState.sent.map Prod.snd
          = initState.sent.map Prod.snd ++ initState.commandQueue.take k
        ∧ initState.commandQueue = initState.commandQueue.drop k :=
  ⟨C5_fifo_order.1 1 'D' [1, 3] initState (by decide) (by decide) (by decide),
   C5_fifo_order.2 1 initState initState Relation.ReflTransGen.refl⟩

/-! ## Synchronous mode and the queue-empty event -/

/-- A complete synchronous-mode `_do_single_command` (`_thread is None`):
a failing assert leaves the state unchanged and propagates the error;
otherwise the command is appended and `_process_command_queue` runs to
completion on the calling thread (lines 117-118). -/
inductive SyncSingleExec (interval : Int) (version : Nat) (command : Char)
    (channel : Nat) : RTSState → RTSState → Option RTSError → Prop
  | fail (s : RTSState) (e : RTSError)
      (h : (do_single_command version command channel s).2 = some e) :
      SyncSingleExec interval version command channel s s (some e)
  | drained (s s' : RTSState) (b : Bool)
      (h : (do_single_command version command channel s).2 = none)
      (hproc : ProcessQueueExec interval
        (do_single_command version command channel s).1 (s', b)) :
      SyncSingleExec interval version command channel s s' none

/-- The synchronous-mode `for` loop of `_do_command` over a collection of
channels, stopping at the first failure. -/
inductive SyncListExec (interval : Int) (version : Nat) (command : Char) :
    List Nat → RTSState → RTSState → Option RTSError → Prop
  | nil (s : RTSState) : SyncListExec interval version command [] s s none
  | consOk (c : Nat) (cs : List Nat) (s s1 s2 : RTSState) (e : Option RTSError)
      (h1 : SyncSingleExec interval version command c s s1 none)
      (h2 : SyncListExec interval version command cs s1 s2 e) :
      SyncListExec interval version command (c :: cs) s s2 e
  | consFail (c : Nat) (cs : List Nat) (s s1 : RTSState) (e : RTSError)
      (h1 : SyncSingleExec interval version command c s s1 (some e)) :
      SyncListExec interval version command (c :: cs) s s1 (some e)

/-- A complete synchronous-mode `up` / `down` / `stop` call. -/
inductive SyncEnqueueExec (interval : Int) (version : Nat) (command : Char) :
    Channels → RTSState → RTSState → Option RTSError → Prop
  | absent (s : RTSState) :
      SyncEnqueueExec interval version command Channels.absent s s none
  | one (c : Nat) (s s' : RTSState) (e : Option RTSError)
      (h : SyncSingleExec interval version command c s s' e) :
      SyncEnqueueExec interval version command (Channels.one c) s s' e
  | many (cs : List Nat) (s s' : RTSState) (e : Option RTSError)
      (h : SyncListExec interval version command cs s s' e) :
      SyncEnqueueExec interval version command (Channels.many cs) s s' e

theorem drainRun_closed {interval : Int} {s s' : RTSState}
    (hrun : Relation.ReflTransGen (DrainStep interval) s s') :
    s'.closed = s.closed := by
  induction hrun with
  | refl => rfl
  | tail hsteps hstep ih =>
    cases hstep with
    | sleep t hcl hq hwait => exact ih
    | write t tWrite tAfter cmd rest hcl hq hdue hstart hafter => exact ih

/-- Every completed `_process_command_queue` call leaves `_queue_is_empty`
set and the closed flag as it found it. -/
theorem processQueueExec_flag {interval : Int} {s sOut : RTSState} {b : Bool}
    (hproc : ProcessQueueExec interval s (sOut, b)) :
    sOut.queueIsEmpty = true ∧ sOut.closed = s.closed := by
  cases hproc with
  | mk sMid hrun hstop =>
    refine ⟨rfl, ?_⟩
    show sMid.closed = s.closed
    exact drainRun_closed hrun

theorem syncSingleExec_flag {interval : Int} {version : Nat} {command : Char}
    {channel : Nat} {s s' : RTSState} {e : Option RTSError}
    (hcl : s.closed = false) (hflag : s.queueIsEmpty = true)
    (hexec : SyncSingleExec interval version command channel s s' e) :
    s'.queueIsEmpty = true ∧ s'.closed = false := by
  cases hexec with
  | fail e h => exact ⟨hflag, hcl⟩
  | drained s' b h hproc =>
    obtain ⟨h1, h2⟩ := processQueueExec_flag hproc
    refine ⟨h1, ?_⟩
    rw [h2, (do_single_command_sameCore version command channel s).1, hcl]

theorem syncListExec_flag {interval : Int} {version : Nat} {command : Char}
    {cs : List Nat} {s s' : RTSState} {e : Option RTSError}
    (hcl : s.closed = false) (hflag : s.queueIsEmpty = true)
    (hexec : SyncListExec interval version command cs s s' e) :
    s'.queueIsEmpty = true ∧ s'.closed = false := by
  induction hexec with
  | nil s => exact ⟨hflag, hcl⟩
  | consOk c cs s s1 s2 e h1 h2 ih =>
    obtain ⟨g1, g2⟩ := syncSingleExec_flag hcl hflag h1
    exact ih g2 g1
  | consFail c cs s s1 e h1 => exact syncSingleExec_flag hcl hflag h1

theorem syncEnqueueExec_flag {interval : Int} {version : Nat} {command : Char}
    {channels : Channels} {s s' : RTSState} {e : Option RTSError}
    (hcl : s.closed = false) (hflag : s.queueIsEmpty = true)
    (hexec : SyncEnqueueExec interval version command channels s s' e) :
    s'.queueIsEmpty = true ∧ s'.closed = false := by
  cases hexec with
  | absent => exact ⟨hflag, hcl⟩
  | one =>
    rename_i h
    exact syncSingleExec_flag hcl hflag h
  | many =>
    rename_i h
    exact syncListExec_flag hcl hflag h

theorem queueInv_init : QueueInv initState := ⟨fun _ => rfl, fun _ => rfl⟩

/-- C8: the queue-empty event `flush_command_queue` waits on is set
whenever a drain completes (so the wait is satisfied once the queue is
drained within the timeout); reachable states where the event is set have
an empty queue (so while commands remain queued the wait cannot be
satisfied and a timed flush returns false on timeout); and in synchronous
mode every completed enqueue leaves the event set, so a subsequent flush
returns true immediately. -/
theorem C8_flush_semantics :
    (∀ interval : Int, ∀ s sOut : RTSState, ∀ b : Bool,
      ProcessQueueExec interval s (sOut, b) → sOut.queueIsEmpty = true)
    ∧ (∀ interval : Int, ∀ s : RTSState,
      Relation.ReflTransGen (SysStep interval) initState s →
      s.queueIsEmpty = true → s.commandQueue = [])
    ∧ (∀ interval : Int, ∀ version : Nat, ∀ command : Char, ∀ channels : Channels,
      ∀ s s' : RTSState, ∀ e : Option RTSError,
      s.closed = false → s.queueIsEmpty = true →
      SyncEnqueueExec interval version command channels s s' e →
      flush_command_queue s' = Except.ok true) := by
  refine ⟨?_, ?_, ?_⟩
  · intro interval s sOut b hproc
    exact (processQueueExec_flag hproc).1
  · intro interval s hrun hflag
    exact (queueInv_reachable hrun queueInv_init).2 hflag
  · intro interval version command channels s s' e hcl hflag hexec
    obtain ⟨h1, h2⟩ := syncEnqueueExec_flag hcl hflag hexec
    unfold flush_command_queue
    rw [if_neg (by simp [h2]), h1]

/-- Witness for C8: a trivially completed drain on a fresh dispatcher, the
fresh dispatcher itself, and a synchronous `up(None)` call. -/
theorem C8_flush_semantics_witness :
    (exitEffects initState).queueIsEmpty = true
    ∧ initState.commandQueue = []
    ∧ flush_command_queue initState = Except.ok true :=
  ⟨C8_flush_semantics.1 1 initState (exitEffects initState) (!initState.closed)
      (ProcessQueueExec.mk initState initState Relation.ReflTransGen.refl (Or.inr rfl)),
   C8_flush_semantics.2.1 1 initState Relation.ReflTransGen.refl rfl,
   C8_flush_semantics.2.2 1 1 'U' Channels.absent initState initState none rfl rfl
      (SyncEnqueueExec.absent initState)⟩

end SomfyRTS
